import Mathlib

/-!
Shallow embedding of the baseline JPEG decoder (`src/src/decoder.cpp`) and
verification of the frozen claims about it.

Conventions used throughout:
* C++ `byte` (an 8-bit unsigned integer, declared in `jpg.h`) is modelled as
  `Nat` holding values in `[0, 256)`; widths are made explicit (`% 256`) at the
  points where the C++ byte arithmetic can wrap.
* C++ `int` is modelled as `Int`; the decoder never relies on 32-bit overflow
  on the paths the claims are about, so no `% 2^32` reduction is inserted
  except where noted in a comment.
* `std::ifstream::get`, which yields `-1` at end of file (stored as `255` by
  the `byte`-typed variables of the parser), is modelled by `readByte` below.
* Fallible operations return `Option`; `none` corresponds to the C++ function
  signalling failure (`return false`, `header->valid = false`, `return -1`).
-/

namespace Jpeg

/-- Modelled from the spec: the fixed zigzag permutation table `zigZagMap`
declared in `jpg.h` (a file of this repository that is not under `src/`).
`zigZagMap[k]` is the row-major spatial index where the `k`-th zigzag
coefficient belongs (spec §3, "Zigzag permutation"). -/
def zigZagMap : List Nat :=
  [0,   1,  8, 16,  9,  2,  3, 10,
   17, 24, 32, 25, 18, 11,  4,  5,
   12, 19, 26, 33, 40, 48, 41, 34,
   27, 20, 13,  6,  7, 14, 21, 28,
   35, 42, 49, 56, 57, 50, 43, 36,
   29, 22, 15, 23, 30, 37, 44, 51,
   58, 59, 52, 45, 38, 31, 39, 46,
   53, 60, 61, 54, 47, 55, 62, 63]

/-- A Huffman table as stored in the `Header` (`jpg.h`): a `set` flag, the 17
cumulative `offsets` and up to 162 `symbols`. -/
structure HuffmanTable where
  set : Bool := false
  offsets : List Nat := List.replicate 17 0
  symbols : List Nat := List.replicate 162 0
deriving Repr, DecidableEq

/-- One entry of `Header::colorComponents` (`jpg.h`). -/
structure ColorComponent where
  used : Bool := false
  horizontalSamplingFactor : Nat := 1
  verticalSamplingFactor : Nat := 1
  quantizationTableID : Nat := 0
  huffmanDCTableID : Nat := 0
  huffmanACTableID : Nat := 0
deriving Repr, DecidableEq

/-- The parsed header (`jpg.h`), restricted to the fields that the embedded
functions read or write.  The quantization tables play no role in any claim
and are omitted. -/
structure Header where
  frameType : Nat := 0
  height : Nat := 0
  width : Nat := 0
  numComponents : Nat := 0
  zeroBased : Bool := false
  restartInterval : Nat := 0
  colorComponents : List ColorComponent := List.replicate 3 {}
  huffmanDCTables : List HuffmanTable := List.replicate 4 {}
  huffmanACTables : List HuffmanTable := List.replicate 4 {}
  startOfSelection : Nat := 0
  endOfSelection : Nat := 63
  successiveApproximationHigh : Nat := 0
  successiveApproximationLow : Nat := 0
  huffmanData : List Nat := []
  valid : Bool := true
deriving Repr, DecidableEq

/-- The `BitReader` helper class (decoder.cpp lines 585-637): a byte vector
with a cursor `(nextByte, nextBit)`. -/
structure BitReader where
  nextByte : Nat := 0
  nextBit : Nat := 0
  data : List Nat
deriving Repr, DecidableEq

/-- Model of `BitReader::readBit` (lines 597-608): one bit MSB-first, or `-1` once all
bits have been read (the reader does not advance in that case). -/
def BitReader.readBit (b : BitReader) : Int × BitReader :=
  if b.nextByte < b.data.length then
    let bit : Int := (((b.data.getD b.nextByte 0) >>> (7 - b.nextBit)) &&& 1 : Nat)
    if b.nextBit + 1 = 8 then
      (bit, { b with nextBit := 0, nextByte := b.nextByte + 1 })
    else
      (bit, { b with nextBit := b.nextBit + 1 })
  else
    (-1, b)

/-- The loop of `BitReader::readBits` (lines 613-624): accumulate `length`
bits MSB-first; on EOF the result is `-1` (the C++ sets `bits = -1` and
breaks; `readBit` no longer advances at EOF, so stopping is equivalent). -/
def readBitsGo : Nat → Int → BitReader → Int × BitReader
  | 0, bits, b => (bits, b)
  | n + 1, bits, b =>
    let (bit, b') := b.readBit
    if bit = -1 then (-1, b')
    else readBitsGo n (2 * bits + bit) b'

/-- Model of `BitReader::readBits` (lines 613-624).  `(bits << 1) | bit` equals
`2 * bits + bit` because `bits` stays nonnegative until EOF. -/
def BitReader.readBits (b : BitReader) (length : Nat) : Int × BitReader :=
  readBitsGo length 0 b

/-- Model of `BitReader::align` (lines 628-636). -/
def BitReader.align (b : BitReader) : BitReader :=
  if b.data.length ≤ b.nextByte then b
  else if b.nextBit ≠ 0 then { b with nextBit := 0, nextByte := b.nextByte + 1 }
  else b

/-- The consecutive codes `code, code+1, …, code+n-1` assigned to one code
length by `generateCodes`. -/
def codeRange (code : Int) : Nat → List Int
  | 0 => []
  | n + 1 => code :: codeRange (code + 1) n

/-- The loop of `generateCodes` (lines 573-582) expressed over the per-length
code counts: assign increasing codes within a length, then shift left when
moving to the next length. -/
def genCodes : List Nat → Int → List Int
  | [], _ => []
  | c :: rest, code => codeRange code c ++ genCodes rest ((code + c) * 2)

/-- The 16 per-length code counts `offsets[j+1] - offsets[j]` of a table. -/
def countsOf (offsets : List Nat) : List Nat :=
  (List.range 16).map fun j => offsets.getD (j + 1) 0 - offsets.getD j 0

/-- Model of `generateCodes` (lines 573-582).  The C++ writes `codes[k]` for
`k ∈ [offsets[j], offsets[j+1])`; for the prefix-sum offsets produced by
`readHuffmanTable` these ranges tile `[0, offsets[16])`, so the filled array
prefix equals this list. -/
def generateCodes (hTable : HuffmanTable) : List Int :=
  genCodes (countsOf hTable.offsets) 0

/-- One step `currentCode = (currentCode << 1) | b.readBit()` of
`getNextSymbol` (line 649).  The shift keeps the low bit clear, so OR-ing a
bit in is addition; OR with the EOF value `-1` is `-1`. -/
def codeStep (c bit : Int) : Int :=
  if bit = -1 then -1 else 2 * c + bit

/-- The inner scan of `getNextSymbol` (lines 644-648) with its trip count
made explicit: check `codes[k] = currentCode` for `n` consecutive indices
starting at `lo`. -/
def findCodeGo (currentCode : Int) (codes : List Int) (symbols : List Nat) :
    Nat → Nat → Option Nat
  | _, 0 => none
  | lo, n + 1 =>
    if codes.getD lo 0 = currentCode then some (symbols.getD lo 0)
    else findCodeGo currentCode codes symbols (lo + 1) n

/-- The inner scan of `getNextSymbol` (lines 644-648): search
`codes[k] = currentCode` for `k ∈ [lo, hi)` and return the matching symbol. -/
def findCode (currentCode : Int) (codes : List Int) (symbols : List Nat)
    (lo hi : Nat) : Option Nat :=
  findCodeGo currentCode codes symbols lo (hi - lo)

/-- The outer loop of `getNextSymbol` (lines 643-650), with `fuel` counting
the remaining code lengths (`j = 16 - fuel`).  After 16 misses the C++
returns `-1`, which its `byte` return type stores as `255`. -/
def getNextSymbolGo (codes : List Int) (hTable : HuffmanTable) :
    Nat → Int → BitReader → Nat × BitReader
  | 0, _, b => (255, b)
  | fuel + 1, currentCode, b =>
    let j := 16 - (fuel + 1)
    match findCode currentCode codes hTable.symbols
        (hTable.offsets.getD j 0) (hTable.offsets.getD (j + 1) 0) with
    | some sym => (sym, b)
    | none =>
      let (bit, b') := b.readBit
      getNextSymbolGo codes hTable fuel (codeStep currentCode bit) b'

/-- Model of `getNextSymbol` (lines 641-652). -/
def getNextSymbol (b : BitReader) (codes : List Int) (hTable : HuffmanTable) :
    Nat × BitReader :=
  let (bit, b') := b.readBit
  getNextSymbolGo codes hTable 16 bit b'

/-- The sign-extension rule of `decodeMCUComponent` (lines 670-672 for DC,
716-718 for AC): a length-`L` raw value `V` with clear high bit is shifted
down by `2^L - 1`. -/
def signExtend (L : Nat) (V : Int) : Int :=
  if L ≠ 0 ∧ V < 2 ^ (L - 1) then V - (2 ^ L - 1) else V

/-- The end-of-block fill `for (; i < 64; ++i) component[zigZagMap[i]] = 0`
(lines 685-687), written with the loop's trip count `64 - i` explicit so that
the recursion is structural. -/
def zeroFillFromAux : Nat → List Int → Nat → List Int
  | 0, comp, _ => comp
  | n + 1, comp, i => zeroFillFromAux n (comp.set (zigZagMap.getD i 0) 0) (i + 1)

/-- End-of-block zero fill starting at zigzag index `i` (lines 685-687). -/
def zeroFillFrom (comp : List Int) (i : Nat) : List Int :=
  zeroFillFromAux (64 - i) comp i

/-- The zero-run fill
`for (uint j = 0; j < numZeroes && i < 64; ++j, ++i) component[zigZagMap[i]] = 0`
(lines 696-698); returns the filled component and the final `i`. -/
def zeroRun (comp : List Int) (i : Nat) : Nat → List Int × Nat
  | 0 => (comp, i)
  | n + 1 =>
    if i < 64 then zeroRun (comp.set (zigZagMap.getD i 0) 0) (i + 1) n
    else (comp, i)

/-- The AC loop of `decodeMCUComponent` (lines 676-721), with a structural
`fuel` bounding the number of remaining outer iterations.  Each iteration
advances `i` by at least one, so `fuel = 64 - i` always suffices; the
`fuel = 0, i < 64` case is unreachable from `decodeACLoop` (see
`decodeACGo_fuel_irrel`).  The comparison `symbol == -1` (line 678) promotes
the unsigned `byte symbol` to `int`, so it is compared as a nonnegative
value exactly as written here. -/
def decodeACGo (acCodes : List Int) (acTable : HuffmanTable) :
    Nat → Nat → List Int → BitReader → Option (List Int × BitReader)
  | 0, i, comp, b => if i < 64 then none else some (comp, b)
  | fuel + 1, i, comp, b =>
    if i < 64 then
      let (symbol, b₁) := getNextSymbol b acCodes acTable
      if (symbol : Int) = -1 then none
      else if symbol = 0 then some (zeroFillFrom comp i, b₁)
      else
        let numZeroes := symbol >>> 4
        let coeffLength := symbol &&& 15
        let zr := zeroRun comp i numZeroes
        if coeffLength > 10 then none
        else if coeffLength ≠ 0 then
          if zr.2 = 64 then none
          else
            let (coeff, b₂) := b₁.readBits coeffLength
            if coeff = -1 then none
            else
              decodeACGo acCodes acTable fuel (zr.2 + 1)
                (zr.1.set (zigZagMap.getD zr.2 0) (signExtend coeffLength coeff)) b₂
        else
          decodeACGo acCodes acTable fuel (zr.2 + 1) zr.1 b₁
    else some (comp, b)

/-- The AC loop of `decodeMCUComponent` entered at zigzag index `i`
(lines 676-721). -/
def decodeACLoop (acCodes : List Int) (acTable : HuffmanTable)
    (i : Nat) (comp : List Int) (b : BitReader) : Option (List Int × BitReader) :=
  decodeACGo acCodes acTable (64 - i) i comp b

/-- Model of `decodeMCUComponent` (lines 656-723).  The DC symbol is compared against
`(byte)-1 = 255` (line 661); `component[0] = coeff + previousDC` (line 673);
then the AC loop runs from zigzag index 1. -/
def decodeMCUComponent (b : BitReader) (component : List Int) (previousDC : Int)
    (dcCodes : List Int) (dcTable : HuffmanTable)
    (acCodes : List Int) (acTable : HuffmanTable) : Option (List Int × BitReader) :=
  let (length, b₁) := getNextSymbol b dcCodes dcTable
  if length = 255 then none
  else
    let (coeff, b₂) := b₁.readBits length
    if coeff = -1 then none
    else
      decodeACLoop acCodes acTable 1
        (component.set 0 (signExtend length coeff + previousDC)) b₂

/-- Modelled from the spec: the `MCU` struct of `jpg.h` (not under `src/`).
Three 64-entry integer arrays, zero-initialized on allocation, aliased as
`y/cb/cr` before color conversion and `r/g/b` after (spec §3, "MCU": for
grayscale only the first array is populated). -/
structure MCU where
  y : List Int := List.replicate 64 0
  cb : List Int := List.replicate 64 0
  cr : List Int := List.replicate 64 0
deriving Repr, DecidableEq

/-- The loop state of `decodeHuffmanData` (lines 754-756, 735): the three
running DC predictors and the bit reader. -/
structure DecodeState where
  prevY : Int := 0
  prevCb : Int := 0
  prevCr : Int := 0
  reader : BitReader
deriving Repr, DecidableEq

/-- The body of the MCU loop of `decodeHuffmanData` (lines 759-791) for the
MCU with 0-based index `i`: decode the Y component (and Cb, Cr when
`numComponents = 3`) of a freshly zero-initialized MCU, update the
predictors from the decoded DC coefficients, and, when the restart interval
divides `numProcessed = i + 1`, reset the predictors and re-align the bit
reader. -/
def decodeMCUStep (h : Header) (dcCodes acCodes : List (List Int))
    (i : Nat) (s : DecodeState) : Option (MCU × DecodeState) :=
  let yDCid := (h.colorComponents.getD 0 {}).huffmanDCTableID
  let yACid := (h.colorComponents.getD 0 {}).huffmanACTableID
  let cbDCid := (h.colorComponents.getD 1 {}).huffmanDCTableID
  let cbACid := (h.colorComponents.getD 1 {}).huffmanACTableID
  let crDCid := (h.colorComponents.getD 2 {}).huffmanDCTableID
  let crACid := (h.colorComponents.getD 2 {}).huffmanACTableID
  let m : MCU := {}
  match decodeMCUComponent s.reader m.y s.prevY
      (dcCodes.getD yDCid []) (h.huffmanDCTables.getD yDCid {})
      (acCodes.getD yACid []) (h.huffmanACTables.getD yACid {}) with
  | none => none
  | some (ycomp, b₁) =>
    if h.numComponents = 3 then
      match decodeMCUComponent b₁ m.cb s.prevCb
          (dcCodes.getD cbDCid []) (h.huffmanDCTables.getD cbDCid {})
          (acCodes.getD cbACid []) (h.huffmanACTables.getD cbACid {}) with
      | none => none
      | some (cbcomp, b₂) =>
        match decodeMCUComponent b₂ m.cr s.prevCr
            (dcCodes.getD crDCid []) (h.huffmanDCTables.getD crDCid {})
            (acCodes.getD crACid []) (h.huffmanACTables.getD crACid {}) with
        | none => none
        | some (crcomp, b₃) =>
          let mcu : MCU := { y := ycomp, cb := cbcomp, cr := crcomp }
          let s₁ : DecodeState :=
            { prevY := ycomp.getD 0 0, prevCb := cbcomp.getD 0 0,
              prevCr := crcomp.getD 0 0, reader := b₃ }
          if h.restartInterval ≠ 0 ∧ (i + 1) % h.restartInterval = 0 then
            some (mcu, { prevY := 0, prevCb := 0, prevCr := 0, reader := b₃.align })
          else some (mcu, s₁)
    else
      let mcu : MCU := { m with y := ycomp }
      let s₁ : DecodeState :=
        { prevY := ycomp.getD 0 0, prevCb := s.prevCb,
          prevCr := s.prevCr, reader := b₁ }
      if h.restartInterval ≠ 0 ∧ (i + 1) % h.restartInterval = 0 then
        some (mcu, { prevY := 0, prevCb := 0, prevCr := 0, reader := b₁.align })
      else some (mcu, s₁)

/-- The MCU loop of `decodeHuffmanData` (lines 758-792): decode `n` MCUs
starting at 0-based index `i`, threading the `DecodeState`. -/
def decodeMCUs (h : Header) (dcCodes acCodes : List (List Int)) :
    Nat → Nat → DecodeState → Option (List MCU × DecodeState)
  | _, 0, s => some ([], s)
  | i, n + 1, s =>
    match decodeMCUStep h dcCodes acCodes i s with
    | none => none
    | some (m, s') =>
      match decodeMCUs h dcCodes acCodes (i + 1) n s' with
      | none => none
      | some (ms, sf) => some (m :: ms, sf)

/-- The entropy-coded data extraction loop of `readJPG` (lines 400-446).
`current` is the byte most recently read; `input` is the rest of the file.
Each iteration shifts `last := current`, reads the next byte, and dispatches
on `last = 0xFF`: `FF D9` stops, `FF 00` appends a literal `0xFF` and skips
the stuffed zero, `FF D0..FF D7` is discarded, `FF FF` is filler, any other
`FF xx` is fatal; a non-`FF` `last` is appended.  Reading past the end of the
file makes the `!inFile` check at the top of the next iteration fail, so an
empty `input` is an error (the C++ `get()` yields `-1`, stored as `0xFF`,
which never equals `EOI = 0xD9`, so no spurious stop can occur first). -/
def extractHuffmanData : Nat → List Nat → Option (List Nat)
  | _, [] => none
  | last, c :: rest =>
    if last = 255 then
      if c = 217 then some []
      else if c = 0 then
        match rest with
        | [] => none
        | c₂ :: rest₂ => (extractHuffmanData c₂ rest₂).map (255 :: ·)
      else if 208 ≤ c ∧ c ≤ 215 then
        match rest with
        | [] => none
        | c₂ :: rest₂ => extractHuffmanData c₂ rest₂
      else if c = 255 then extractHuffmanData c rest
      else none
    else (extractHuffmanData c rest).map (last :: ·)

/-- The spec's description of entropy-data extraction (spec §4.1,
"Entropy-coded data extraction"), stated as a relation between the byte
stream after the SOS payload and the extracted payload: a literal `0xFF` is
appended exactly for an `FF 00` escape pair, `FF D0..FF D7` is discarded,
`FF FF` is filler, `FF D9` stops, a non-`FF` byte is appended, and no other
stream is accepted. -/
inductive UnstuffSpec : List Nat → List Nat → Prop
  | eoi (rest : List Nat) : UnstuffSpec (255 :: 217 :: rest) []
  | lit {b : Nat} {rest out : List Nat} (hb : b ≠ 255)
      (h : UnstuffSpec rest out) : UnstuffSpec (b :: rest) (b :: out)
  | esc {rest out : List Nat} (h : UnstuffSpec rest out) :
      UnstuffSpec (255 :: 0 :: rest) (255 :: out)
  | rst {m : Nat} {rest out : List Nat} (h₁ : 208 ≤ m) (h₂ : m ≤ 215)
      (h : UnstuffSpec rest out) : UnstuffSpec (255 :: m :: rest) out
  | fill {rest out : List Nat} (h : UnstuffSpec (255 :: rest) out) :
      UnstuffSpec (255 :: 255 :: rest) out

/-- Model of `std::ifstream::get` as seen by the `byte`-typed parser variables: the
next byte, or `255` (the truncation of the EOF value `-1`) past the end. -/
def readByte : List Nat → Nat × List Nat
  | [] => (255, [])
  | b :: r => (b % 256, r)

/-- Helper reading the big-endian two-byte segment length
`(inFile.get() << 8) + inFile.get()`. -/
def readWord (input : List Nat) : Nat × List Nat :=
  let (hi, in₁) := readByte input
  let (lo, in₂) := readByte in₁
  (hi * 256 + lo, in₂)

/-- The per-component loop of `readStartOfFrame` (lines 44-80): reads
`(componentID, samplingFactor, quantizationTableID)` for each of `count`
components, applying the zero-based bias and the validity checks.  On any
error the header is returned with `valid := false` and all earlier
modifications kept, exactly as the C++ early returns leave it. -/
def readSOFComponents (count : Nat) (h : Header) (input : List Nat) :
    Header × List Nat :=
  match count with
  | 0 => (h, input)
  | n + 1 =>
    let (cid₀, in₁) := readByte input
    let h₁ := if cid₀ = 0 then { h with zeroBased := true } else h
    let cid := if h₁.zeroBased then (cid₀ + 1) % 256 else cid₀
    if cid = 4 ∨ cid = 5 then ({ h₁ with valid := false }, in₁)
    else if cid = 0 ∨ cid > 3 then ({ h₁ with valid := false }, in₁)
    else
      let comp := h₁.colorComponents.getD (cid - 1) {}
      if comp.used then ({ h₁ with valid := false }, in₁)
      else
        let (samplingFactor, in₂) := readByte in₁
        let (qtID, in₃) := readByte in₂
        let comp' : ColorComponent :=
          { comp with
            used := true,
            horizontalSamplingFactor := samplingFactor >>> 4,
            verticalSamplingFactor := samplingFactor &&& 15,
            quantizationTableID := qtID }
        let h₂ := { h₁ with colorComponents := h₁.colorComponents.set (cid - 1) comp' }
        if qtID > 3 then ({ h₂ with valid := false }, in₃)
        else readSOFComponents n h₂ in₃

/-- Model of `readStartOfFrame` (lines 9-85).  A second SOF (nonzero `numComponents`)
invalidates the header before anything is read.  The final length check
`length - 8 - 3*numComponents != 0` is unsigned arithmetic whose wraparound
is zero exactly when `length = 8 + 3*numComponents`. -/
def readStartOfFrame (h : Header) (input : List Nat) : Header :=
  if h.numComponents ≠ 0 then { h with valid := false }
  else
    let (length, in₁) := readWord input
    let (precision, in₂) := readByte in₁
    if precision ≠ 8 then { h with valid := false }
    else
      let (height, in₃) := readWord in₂
      let (width, in₄) := readWord in₃
      let h₁ := { h with height := height, width := width }
      if height = 0 ∨ width = 0 then { h with valid := false }
      else
        let (numComponents, in₅) := readByte in₄
        if numComponents = 4 then { h₁ with valid := false }
        else if numComponents = 0 then { h₁ with valid := false }
        else
          let h₂ := { h₁ with numComponents := numComponents }
          let (h₃, _) := readSOFComponents numComponents h₂ in₅
          if ¬ h₃.valid then h₃
          else if length ≠ 8 + 3 * numComponents then { h₃ with valid := false }
          else h₃

/-- The result of the modelled `readStartOfScan`: a normally updated header,
a header invalidated by a detected error, or an out-of-bounds access to the
3-element `colorComponents` array (undefined behavior in the C++). -/
inductive SOSResult where
  | ok (h : Header) (rest : List Nat)
  | fail (h : Header)
  | oob (idx : Int)
deriving Repr, DecidableEq

/-- The flag-clearing loop of `readStartOfScan` (lines 183-185):
`colorComponents[i].used = false` for `i < numComponents`, with the access
index checked against the array bound 3. -/
def clearUsedFlags (comps : List ColorComponent) : Nat → Nat →
    Option (List ColorComponent)
  | _, 0 => some comps
  | i, n + 1 =>
    if i < 3 then
      clearUsedFlags (comps.set i { comps.getD i {} with used := false }) (i + 1) n
    else none

/-- The per-scan-component loop of `readStartOfScan` (lines 190-222).
`componentID - 1` (line 201) is computed after integer promotion, so a
`componentID` of 0 yields the index `-1`; any access outside `[0, 3)` is
reported as `SOSResult.oob`. -/
def readSOSComponents (numComponents : Nat) (zeroBased : Bool) :
    Nat → List ColorComponent → List Nat → Sum (List ColorComponent × List Nat) SOSResult
  | 0, comps, input => Sum.inl (comps, input)
  | n + 1, comps, input =>
    let (cid₀, in₁) := readByte input
    let cid := if zeroBased then (cid₀ + 1) % 256 else cid₀
    if cid > numComponents then Sum.inr (SOSResult.fail { valid := false })
    else
      let idx : Int := (cid : Int) - 1
      if 0 ≤ idx ∧ idx < 3 then
        let comp := comps.getD idx.toNat {}
        if comp.used then Sum.inr (SOSResult.fail { valid := false })
        else
          let (tableIDs, in₂) := readByte in₁
          let dcID := tableIDs >>> 4
          let acID := tableIDs &&& 15
          let comp' := { comp with
            used := true,
            huffmanDCTableID := dcID, huffmanACTableID := acID }
          if dcID > 3 then Sum.inr (SOSResult.fail { valid := false })
          else if acID > 3 then Sum.inr (SOSResult.fail { valid := false })
          else readSOSComponents numComponents zeroBased n (comps.set idx.toNat comp') in₂
      else Sum.inr (SOSResult.oob idx)

/-- Model of `readStartOfScan` (lines 174-246).  The `fail` results carry
`{ valid := false }` only as a marker that the C++ would have set
`header->valid = false`; the claims about this function concern only which
`colorComponents` indices are accessed, captured by `SOSResult.oob`. -/
def readStartOfScan (h : Header) (input : List Nat) : SOSResult :=
  if h.numComponents = 0 then SOSResult.fail { h with valid := false }
  else
    let (_, in₁) := readWord input
    match clearUsedFlags h.colorComponents 0 h.numComponents with
    | none => SOSResult.oob 3
    | some comps₀ =>
      let (scanComponents, in₂) := readByte in₁
      match readSOSComponents h.numComponents h.zeroBased scanComponents comps₀ in₂ with
      | Sum.inr r => r
      | Sum.inl (comps₁, in₃) =>
        let (sos, in₄) := readByte in₃
        let (eos, in₅) := readByte in₄
        let (sa, in₆) := readByte in₅
        let h₁ := { h with
          colorComponents := comps₁,
          startOfSelection := sos, endOfSelection := eos,
          successiveApproximationHigh := sa >>> 4,
          successiveApproximationLow := sa &&& 15 }
        if sos ≠ 0 ∨ eos ≠ 63 then SOSResult.fail { h₁ with valid := false }
        else if sa >>> 4 ≠ 0 ∨ sa &&& 15 ≠ 0 then SOSResult.fail { h₁ with valid := false }
        else SOSResult.ok h₁ in₆

/-- The environment of one program run as `main` (lines 962-1014) observes
it: whether exactly one argument was passed, the result of `readJPG`
(`none` models the null return on input-open or allocation failure), whether
`decodeHuffmanData` succeeded, and whether the output BMP file could be
opened by `writeBMP` (line 921). -/
structure RunEnv where
  argcIsTwo : Bool
  readResult : Option Header
  decodeSucceeds : Bool
  outputOpens : Bool
deriving Repr, DecidableEq

/-- Model of `main` (lines 962-1014), returning the process exit code together with
whether a BMP file was produced.  `writeBMP` (lines 918-960) returns `void`:
when the output file fails to open it prints a message and returns, and
`main` still reaches `return 0`. -/
def mainRun (env : RunEnv) : Nat × Bool :=
  if ¬ env.argcIsTwo then (1, false)
  else
    match env.readResult with
    | none => (1, false)
    | some h =>
      if h.valid = false then (1, false)
      else if ¬ env.decodeSucceeds then (1, false)
      else (0, env.outputOpens)

/-- The number of bits of the signed coefficient `v` in the JPEG magnitude
code (spec §8, property 4): size 0 for 0, otherwise `⌊log₂ |v|⌋ + 1`. -/
def coeffBitLength (v : Int) : Nat :=
  if v = 0 then 0 else Nat.log2 v.natAbs + 1

/-- Re-encoding of a decoded coefficient into its `(size, raw value)` pair:
the inverse direction of the sign-extension rule (spec §8, property 4:
nonnegative values are coded as themselves, negative ones biased by
`2^L - 1`). -/
def encodeCoeff (v : Int) : Nat × Int :=
  (coeffBitLength v, if 0 ≤ v then v else v + (2 ^ coeffBitLength v - 1))

/-! ## Generic list helpers -/

lemma getD_set_ne (l : List Int) (i j : Nat) (a d : Int) (hij : i ≠ j) :
    (l.set i a).getD j d = l.getD j d := by
  induction l generalizing i j with
  | nil => rfl
  | cons x xs ih =>
    cases i with
    | zero =>
      cases j with
      | zero => exact absurd rfl hij
      | succ j' => rfl
    | succ i' =>
      cases j with
      | zero => rfl
      | succ j' => exact ih i' j' (fun h => hij (by omega))

lemma getD_set_eq (l : List Int) (i : Nat) (a d : Int) (hi : i < l.length) :
    (l.set i a).getD i d = a := by
  induction l generalizing i with
  | nil => simp at hi
  | cons x xs ih =>
    cases i with
    | zero => rfl
    | succ i' => exact ih i' (by simpa using hi)

lemma length_set (l : List Int) (i : Nat) (a : Int) :
    (l.set i a).length = l.length := by
  simp

/-! ## C7: sign-extension round trip -/

/-- Claim C7: For every `(L, V)` with `L ∈ [0, 11]` and `V ∈ [0, 2^L)`, the
sign-extension rule of `decodeMCUComponent` produces `0` when `L = 0` and
otherwise a value in `[-(2^L - 1), -2^(L-1) + 1] ∪ [2^(L-1), 2^L - 1]`, and
re-encoding the value yields the same `(L, V)`. -/
theorem signExtend_roundTrip (L : Nat) (V : Int)
    (hL : L ≤ 11) (hV0 : 0 ≤ V) (hV : V < 2 ^ L) :
    ((L = 0 → signExtend L V = 0) ∧
     (L ≠ 0 →
       (-(2 ^ L - 1) ≤ signExtend L V ∧ signExtend L V ≤ -(2 ^ (L - 1)) + 1) ∨
       (2 ^ (L - 1) ≤ signExtend L V ∧ signExtend L V ≤ 2 ^ L - 1))) ∧
    encodeCoeff (signExtend L V) = (L, V) := by
  rcases Nat.eq_zero_or_pos L with hL0 | hLpos
  · subst hL0
    have hV00 : V = 0 := by simp only [pow_zero] at hV; omega
    subst hV00
    have h00 : signExtend 0 0 = 0 := by simp [signExtend]
    exact ⟨⟨fun _ => h00, fun h => absurd rfl h⟩, by
      simp [h00, encodeCoeff, coeffBitLength]⟩
  · have hpow : (2 : ℤ) ^ L = 2 * 2 ^ (L - 1) := by
      conv_lhs => rw [show L = (L - 1) + 1 by omega]
      ring
    have hpowpos : (0 : ℤ) < 2 ^ (L - 1) := by positivity
    have hcast₁ : (((2 : ℕ) ^ (L - 1) : ℕ) : ℤ) = 2 ^ (L - 1) := by push_cast; ring
    have hcast₂ : (((2 : ℕ) ^ L : ℕ) : ℤ) = 2 ^ L := by push_cast; ring
    have hlog : ∀ n : ℕ, 2 ^ (L - 1) ≤ n → n < 2 ^ L → Nat.log2 n = L - 1 := by
      intro n h₁ h₂
      rw [Nat.log2_eq_log_two]
      exact Nat.log_eq_of_pow_le_of_lt_pow h₁ (by rwa [show (L - 1) + 1 = L by omega])
    by_cases hneg : V < 2 ^ (L - 1)
    · have hse : signExtend L V = V - (2 ^ L - 1) := by
        rw [signExtend, if_pos ⟨by omega, hneg⟩]
      have habs₁ : 2 ^ (L - 1) ≤ (signExtend L V).natAbs := by
        rw [hse]; omega
      have habs₂ : (signExtend L V).natAbs < 2 ^ L := by
        rw [hse]; omega
      have hbl : coeffBitLength (signExtend L V) = L := by
        rw [coeffBitLength, if_neg (by rw [hse]; omega), hlog _ habs₁ habs₂]
        omega
      refine ⟨⟨fun h => absurd h (by omega),
        fun _ => Or.inl ⟨by rw [hse]; omega, by rw [hse]; omega⟩⟩, ?_⟩
      rw [encodeCoeff, hbl, if_neg (by rw [hse]; omega), hse]
      refine Prod.ext rfl ?_
      ring
    · have hse : signExtend L V = V := by
        rw [signExtend, if_neg (by tauto)]
      push_neg at hneg
      have hbl : coeffBitLength (signExtend L V) = L := by
        rw [coeffBitLength, if_neg (by rw [hse]; omega),
          hlog _ (by rw [hse]; omega) (by rw [hse]; omega)]
        omega
      refine ⟨⟨fun h => absurd h (by omega),
        fun _ => Or.inr ⟨by rw [hse]; omega, by rw [hse]; omega⟩⟩, ?_⟩
      rw [encodeCoeff, hbl, if_pos (by rw [hse]; omega), hse]

/-- Witness for C7 at `(L, V) = (3, 2)`: the decoded value is
`2 - 7 = -5 ∈ [-7, -3]` and re-encodes to `(3, 2)`. -/
theorem signExtend_roundTrip_witness :
    (3 ≠ 0 →
      (-(2 ^ 3 - 1) ≤ signExtend 3 2 ∧ signExtend 3 2 ≤ -(2 ^ (3 - 1)) + 1) ∨
      (2 ^ (3 - 1) ≤ signExtend 3 2 ∧ signExtend 3 2 ≤ 2 ^ 3 - 1)) ∧
    encodeCoeff (signExtend 3 2) = (3, 2) :=
  ⟨(signExtend_roundTrip 3 2 (by decide) (by decide) (by decide)).1.2,
   (signExtend_roundTrip 3 2 (by decide) (by decide) (by decide)).2⟩

/-! ## C2: exit code on output-open failure -/

/-- Claim C2, evaluated at the failing input.  In a run where the arguments,
`readJPG`, and `decodeHuffmanData` all succeed but opening the output BMP
file fails, `main` still returns exit code 0 while no BMP is produced:
`writeBMP` only prints a message when `outFile.is_open()` fails (lines
921-924) and returns `void`, and `main` unconditionally reaches `return 0`
(line 1013).  This contradicts the claim (and spec §6/§7) that any I/O error
yields exit code 1. -/
theorem mainRun_outputOpenFailure :
    mainRun { argcIsTwo := true, readResult := some { valid := true },
              decodeSucceeds := true, outputOpens := false } = (0, false) := by
  rfl

/-! ## C9: colorComponents indexing in readStartOfScan -/

/-- Claim C9, evaluated at the failing input.  For a header whose SOF
component IDs did not start at 0 (`zeroBased = false`, `numComponents = 1`)
and an SOS payload declaring one scan component with ID byte `0x00`, the
check `componentID > header->numComponents` (line 196) passes (`0 > 1` is
false), and `readStartOfScan` reaches the access
`colorComponents[componentID - 1]` with index `-1` — an out-of-bounds array
access, not a rejection.  The SOS payload bytes are
`length = 0x0008, numComponents = 1, componentID = 0, tableIDs = 0,
start = 0, end = 63, approx = 0`. -/
theorem readStartOfScan_idZero_outOfBounds :
    readStartOfScan { numComponents := 1 } [0, 8, 1, 0, 0, 0, 63, 0] =
      SOSResult.oob (-1) := by
  rfl

/-! ## C10: a second SOF0 segment -/

/-- Claim C10: If a start-of-frame segment arrives when `numComponents` is
already nonzero (a second SOF0), `readStartOfFrame` sets `valid := false`
and changes nothing else: the early return at lines 10-14 fires before any
byte of the segment is read, so `height`, `width`, `numComponents` and the
color components are untouched. -/
theorem readStartOfFrame_secondSOF (h : Header) (input : List Nat)
    (hnc : h.numComponents ≠ 0) :
    readStartOfFrame h input = { h with valid := false } := by
  rw [readStartOfFrame, if_pos hnc]

/-- Witness for C10: a header that has already seen an SOF (one component)
is invalidated by a second SOF segment, with all other fields kept. -/
theorem readStartOfFrame_secondSOF_witness :
    readStartOfFrame { numComponents := 1, height := 8, width := 8 } [255, 100, 3] =
      { numComponents := 1, height := 8, width := 8, valid := false } :=
  readStartOfFrame_secondSOF
    { numComponents := 1, height := 8, width := 8 } [255, 100, 3] (by decide)

/-! ## C5: entropy-data extraction refines the spec's unstuffing relation -/

lemma extract_sound_aux : ∀ n (input : List Nat), input.length ≤ n →
    ∀ current out, extractHuffmanData current input = some out →
    UnstuffSpec (current :: input) out := by
  intro n
  induction n with
  | zero =>
    intro input hlen current out hx
    have hnil : input = [] := List.length_eq_zero.mp (Nat.le_zero.mp hlen)
    subst hnil
    rw [extractHuffmanData.eq_1] at hx
    cases hx
  | succ n ih =>
    intro input hlen current out hx
    cases input with
    | nil =>
      rw [extractHuffmanData.eq_1] at hx
      cases hx
    | cons c rest =>
      simp only [List.length_cons] at hlen
      cases rest with
      | nil =>
        rw [extractHuffmanData.eq_2] at hx
        by_cases h255 : current = 255
        · subst h255
          rw [if_pos rfl] at hx
          by_cases hc217 : c = 217
          · subst hc217
            rw [if_pos rfl] at hx
            cases hx
            exact UnstuffSpec.eoi []
          · rw [if_neg hc217] at hx
            by_cases hc0 : c = 0
            · rw [if_pos hc0] at hx; cases hx
            · rw [if_neg hc0] at hx
              by_cases hrst : 208 ≤ c ∧ c ≤ 215
              · rw [if_pos hrst] at hx; cases hx
              · rw [if_neg hrst] at hx
                by_cases hc255 : c = 255
                · rw [if_pos hc255, extractHuffmanData.eq_1] at hx; cases hx
                · rw [if_neg hc255] at hx; cases hx
        · rw [if_neg h255, extractHuffmanData.eq_1] at hx
          simp at hx
      | cons c₂ rest₂ =>
        simp only [List.length_cons] at hlen
        rw [extractHuffmanData.eq_3] at hx
        by_cases h255 : current = 255
        · subst h255
          rw [if_pos rfl] at hx
          by_cases hc217 : c = 217
          · subst hc217
            rw [if_pos rfl] at hx
            cases hx
            exact UnstuffSpec.eoi (c₂ :: rest₂)
          · rw [if_neg hc217] at hx
            by_cases hc0 : c = 0
            · subst hc0
              rw [if_pos rfl] at hx
              obtain ⟨out', hout', rfl⟩ := Option.map_eq_some'.mp hx
              exact UnstuffSpec.esc (ih rest₂ (by omega) c₂ out' hout')
            · rw [if_neg hc0] at hx
              by_cases hrst : 208 ≤ c ∧ c ≤ 215
              · rw [if_pos hrst] at hx
                exact UnstuffSpec.rst hrst.1 hrst.2 (ih rest₂ (by omega) c₂ out hx)
              · rw [if_neg hrst] at hx
                by_cases hc255 : c = 255
                · subst hc255
                  rw [if_pos rfl] at hx
                  exact UnstuffSpec.fill
                    (ih (c₂ :: rest₂) (by simp only [List.length_cons]; omega) 255 out hx)
                · rw [if_neg hc255] at hx; cases hx
        · rw [if_neg h255] at hx
          obtain ⟨out', hout', rfl⟩ := Option.map_eq_some'.mp hx
          exact UnstuffSpec.lit h255
            (ih (c₂ :: rest₂) (by simp only [List.length_cons]; omega) c out' hout')

lemma extract_complete : ∀ {s out : List Nat}, UnstuffSpec s out →
    ∃ c input, s = c :: input ∧ extractHuffmanData c input = some out := by
  intro s out h
  induction h with
  | eoi rest =>
    refine ⟨255, 217 :: rest, rfl, ?_⟩
    cases rest with
    | nil => rw [extractHuffmanData.eq_2, if_pos rfl, if_pos rfl]
    | cons c₂ rest₂ => rw [extractHuffmanData.eq_3, if_pos rfl, if_pos rfl]
  | lit hb _ ih =>
    obtain ⟨c, input, rfl, hx⟩ := ih
    refine ⟨_, _, rfl, ?_⟩
    cases input with
    | nil => rw [extractHuffmanData.eq_2, if_neg hb, hx]; rfl
    | cons c₂ rest₂ => rw [extractHuffmanData.eq_3, if_neg hb, hx]; rfl
  | esc _ ih =>
    obtain ⟨c, input, rfl, hx⟩ := ih
    refine ⟨255, 0 :: c :: input, rfl, ?_⟩
    rw [extractHuffmanData.eq_3, if_pos rfl, if_neg (by decide), if_pos rfl, hx]
    rfl
  | rst h₁ h₂ _ ih =>
    obtain ⟨c, input, rfl, hx⟩ := ih
    refine ⟨255, _ :: c :: input, rfl, ?_⟩
    rw [extractHuffmanData.eq_3, if_pos rfl, if_neg (by omega), if_neg (by omega),
      if_pos ⟨h₁, h₂⟩]
    exact hx
  | @fill rest out' _ ih =>
    obtain ⟨c, input, heq, hx⟩ := ih
    injection heq with h1 h2
    subst h1
    subst h2
    refine ⟨255, 255 :: rest, rfl, ?_⟩
    cases rest with
    | nil =>
      rw [extractHuffmanData.eq_2, if_pos rfl, if_neg (by decide), if_neg (by decide),
        if_neg (by decide), if_pos rfl]
      exact hx
    | cons c₂ rest₂ =>
      rw [extractHuffmanData.eq_3, if_pos rfl, if_neg (by decide), if_neg (by decide),
        if_neg (by decide), if_pos rfl]
      exact hx

/-- Claim C5: The entropy-coded data extraction loop of `readJPG` accepts a
byte stream and produces a payload exactly when the spec's unstuffing
relation `UnstuffSpec` relates the two: a literal `0xFF` is appended to
`huffmanData` exactly when the loop reads an `FF 00` escape pair,
`FF D0..FF D7` is discarded, `FF FF` filler is skipped, `FF D9` stops the
loop, and every other `FF xx` (and running out of input) fails.  In
particular every `0xFF` byte of `huffmanData` was produced by the `esc`
rule from an `FF 00` pair, so the payload contains no unescaped marker
bytes. -/
theorem extractHuffmanData_iff_unstuffSpec (current : Nat) (input out : List Nat) :
    extractHuffmanData current input = some out ↔
      UnstuffSpec (current :: input) out := by
  constructor
  · exact extract_sound_aux input.length input le_rfl current out
  · intro h
    obtain ⟨c, input', heq, hx⟩ := extract_complete h
    injection heq with h1 h2
    subst h1
    subst h2
    exact hx

/-- Witness for C5: the stream `12 FF 00 34 FF D9` extracts to the payload
`[12, 255, 34]`, whose `0xFF` came from the escape pair. -/
theorem extractHuffmanData_iff_unstuffSpec_witness :
    UnstuffSpec [12, 255, 0, 34, 255, 217] [12, 255, 34] :=
  (extractHuffmanData_iff_unstuffSpec 12 [255, 0, 34, 255, 217] [12, 255, 34]).mp
    (by decide)

/-! ## Properties of the zero-run fill and the AC loop fuel -/

lemma zeroRun_snd_ge (n : Nat) : ∀ (comp : List Int) (i : Nat),
    i ≤ (zeroRun comp i n).2 := by
  induction n with
  | zero => intro comp i; exact le_rfl
  | succ n ih =>
    intro comp i
    rw [zeroRun]
    by_cases h : i < 64
    · rw [if_pos h]
      exact le_trans (Nat.le_succ i) (ih _ (i + 1))
    · rw [if_neg h]

lemma zeroRun_snd_le (n : Nat) : ∀ (comp : List Int) (i : Nat), i ≤ 64 →
    (zeroRun comp i n).2 ≤ 64 := by
  induction n with
  | zero => intro comp i h; exact h
  | succ n ih =>
    intro comp i h
    rw [zeroRun]
    by_cases h' : i < 64
    · rw [if_pos h']
      exact ih _ (i + 1) (by omega)
    · rw [if_neg h']
      exact h

lemma zeroRun_snd_of_le (n : Nat) : ∀ (comp : List Int) (i : Nat),
    i + n ≤ 64 → (zeroRun comp i n).2 = i + n := by
  induction n with
  | zero => intro comp i _; rfl
  | succ n ih =>
    intro comp i h
    rw [zeroRun, if_pos (by omega)]
    rw [ih _ (i + 1) (by omega)]
    omega

lemma zeroRun_snd_of_ge (n : Nat) : ∀ (comp : List Int) (i : Nat),
    i ≤ 64 → 64 ≤ i + n → (zeroRun comp i n).2 = 64 := by
  induction n with
  | zero => intro comp i h₁ h₂; simp [zeroRun]; omega
  | succ n ih =>
    intro comp i h₁ h₂
    rw [zeroRun]
    by_cases h : i < 64
    · rw [if_pos h]
      exact ih _ (i + 1) (by omega) (by omega)
    · rw [if_neg h]
      omega

/-- The fuel argument of `decodeACGo` is irrelevant as long as it covers the
remaining `64 - i` iterations: this is the sense in which `decodeACGo` with
fuel `64 - i` is the C++ loop. -/
lemma decodeACGo_fuel_irrel (acCodes : List Int) (acTable : HuffmanTable) :
    ∀ (n m i : Nat) (comp : List Int) (b : BitReader), 64 - i ≤ n → 64 - i ≤ m →
    decodeACGo acCodes acTable n i comp b = decodeACGo acCodes acTable m i comp b := by
  intro n
  induction n with
  | zero =>
    intro m i comp b hn hm
    have hi : ¬ i < 64 := by omega
    cases m with
    | zero => rfl
    | succ m => rw [decodeACGo, decodeACGo, if_neg hi, if_neg hi]
  | succ n ih =>
    intro m i comp b hn hm
    by_cases hi : i < 64
    · have hm1 : ∃ m', m = m' + 1 := ⟨m - 1, by omega⟩
      obtain ⟨m', rfl⟩ := hm1
      rw [decodeACGo, decodeACGo, if_pos hi, if_pos hi]
      obtain ⟨symbol, b₁⟩ := getNextSymbol b acCodes acTable
      dsimp only
      by_cases hs1 : (symbol : Int) = -1
      · rw [if_pos hs1, if_pos hs1]
      · rw [if_neg hs1, if_neg hs1]
        by_cases hs0 : symbol = 0
        · rw [if_pos hs0, if_pos hs0]
        · rw [if_neg hs0, if_neg hs0]
          have hzr := zeroRun_snd_ge (symbol >>> 4) comp i
          by_cases hcl : symbol &&& 15 > 10
          · rw [if_pos hcl, if_pos hcl]
          · rw [if_neg hcl, if_neg hcl]
            by_cases hcl0 : symbol &&& 15 ≠ 0
            · rw [if_pos hcl0, if_pos hcl0]
              by_cases h64 : (zeroRun comp i (symbol >>> 4)).2 = 64
              · rw [if_pos h64, if_pos h64]
              · rw [if_neg h64, if_neg h64]
                obtain ⟨coeff, b₂⟩ := b₁.readBits (symbol &&& 15)
                dsimp only
                by_cases hcf : coeff = -1
                · rw [if_pos hcf, if_pos hcf]
                · rw [if_neg hcf, if_neg hcf]
                  exact ih m' _ _ _ (by omega) (by omega)
            · rw [if_neg hcl0, if_neg hcl0]
              exact ih m' _ _ _ (by omega) (by omega)
    · cases m with
      | zero => rw [decodeACGo, decodeACGo, if_neg hi, if_neg hi]
      | succ m => rw [decodeACGo, decodeACGo, if_neg hi, if_neg hi]

/-! ## C8: a Huffman lookup miss is fatal for the block -/

/-- Claim C8: If `getNextSymbol` misses at all code lengths 1..16 (including
at EOF) it returns its sentinel `(byte)-1 = 255`, and the decode of the
current block then fails: for the DC read, `decodeMCUComponent` returns
failure through the `length == (byte)-1` check; for an AC read at any
position of the block, the AC loop returns failure (the sentinel `0xFF` has
coefficient length `15 > 10`, so the `coeffLength > 10` check fires — the
literal `symbol == -1` comparison at line 678 never fires because the
unsigned `byte` promotes to `255`). -/
theorem huffmanMiss_failsBlock :
    (∀ (b : BitReader) (component : List Int) (previousDC : Int)
       (dcCodes : List Int) (dcTable : HuffmanTable)
       (acCodes : List Int) (acTable : HuffmanTable) (b₁ : BitReader),
       getNextSymbol b dcCodes dcTable = (255, b₁) →
       decodeMCUComponent b component previousDC dcCodes dcTable acCodes acTable
         = none) ∧
    (∀ (acCodes : List Int) (acTable : HuffmanTable) (i : Nat) (comp : List Int)
       (b b₁ : BitReader), i < 64 →
       getNextSymbol b acCodes acTable = (255, b₁) →
       decodeACLoop acCodes acTable i comp b = none) := by
  constructor
  · intro b component previousDC dcCodes dcTable acCodes acTable b₁ hsym
    rw [decodeMCUComponent, hsym]
    dsimp only
    rw [if_pos rfl]
  · intro acCodes acTable i comp b b₁ hi hsym
    obtain ⟨k, hk⟩ : ∃ k, 64 - i = k + 1 := ⟨63 - i, by omega⟩
    rw [decodeACLoop, hk, decodeACGo, if_pos hi, hsym]
    dsimp only
    rw [if_neg (by decide), if_neg (by decide), if_pos (by decide)]

/-- Witness for C8: with an empty Huffman table and an exhausted bit reader,
the lookup returns the sentinel and both the DC-position decode and the AC
loop fail. -/
theorem huffmanMiss_failsBlock_witness :
    decodeMCUComponent ⟨0, 0, []⟩ (List.replicate 64 0) 0 [] {} [] {} = none ∧
    decodeACLoop [] {} 1 (List.replicate 64 0) ⟨0, 0, []⟩ = none :=
  ⟨huffmanMiss_failsBlock.1 ⟨0, 0, []⟩ (List.replicate 64 0) 0 [] {} [] {}
      ⟨0, 0, []⟩ (by decide),
   huffmanMiss_failsBlock.2 [] {} 1 (List.replicate 64 0) ⟨0, 0, []⟩
      ⟨0, 0, []⟩ (by decide) (by decide)⟩

/-! ## Effect of the zero-run fill on the component -/

lemma set_of_length_le (l : List Int) (i : Nat) (a : Int) (h : l.length ≤ i) :
    l.set i a = l := by
  induction l generalizing i with
  | nil => rfl
  | cons x xs ih =>
    cases i with
    | zero => simp at h
    | succ i' => simp only [List.set]; rw [ih i' (by simpa using h)]

lemma zeroRun_length (n : Nat) : ∀ (comp : List Int) (i : Nat),
    ((zeroRun comp i n).1).length = comp.length := by
  induction n with
  | zero => intro comp i; rfl
  | succ n ih =>
    intro comp i
    rw [zeroRun]
    by_cases h : i < 64
    · rw [if_pos h, ih]; simp
    · rw [if_neg h]

lemma zeroRun_getD_of_ne (n : Nat) : ∀ (comp : List Int) (i : Nat) (p : Nat) (d : Int),
    (∀ k, i ≤ k → k < i + n → k < 64 → zigZagMap.getD k 0 ≠ p) →
    ((zeroRun comp i n).1).getD p d = comp.getD p d := by
  induction n with
  | zero => intro comp i p d _; rfl
  | succ n ih =>
    intro comp i p d hne
    rw [zeroRun]
    by_cases h : i < 64
    · rw [if_pos h]
      rw [ih _ (i + 1) p d (fun k hk₁ hk₂ hk₃ => hne k (by omega) (by omega) hk₃)]
      exact getD_set_ne _ _ _ _ _ (hne i le_rfl (by omega) h)
    · rw [if_neg h]

lemma zeroRun_preserves_zero (n : Nat) : ∀ (comp : List Int) (i : Nat) (p : Nat),
    comp.getD p 0 = 0 → ((zeroRun comp i n).1).getD p 0 = 0 := by
  induction n with
  | zero => intro comp i p h; exact h
  | succ n ih =>
    intro comp i p h
    rw [zeroRun]
    by_cases hlt : i < 64
    · rw [if_pos hlt]
      refine ih _ (i + 1) p ?_
      by_cases hp : zigZagMap.getD i 0 = p
      · subst hp
        by_cases hb : zigZagMap.getD i 0 < comp.length
        · rw [getD_set_eq _ _ _ _ hb]
        · rw [set_of_length_le _ _ _ (by omega)]
          exact h
      · rw [getD_set_ne _ _ _ _ _ hp]
        exact h
    · rw [if_neg hlt]
      exact h

lemma zeroRun_getD_zero (n : Nat) : ∀ (comp : List Int) (i k : Nat),
    i ≤ k → k < i + n → k < 64 → zigZagMap.getD k 0 < comp.length →
    ((zeroRun comp i n).1).getD (zigZagMap.getD k 0) 0 = 0 := by
  induction n with
  | zero => intro comp i k h₁ h₂ _ _; omega
  | succ n ih =>
    intro comp i k h₁ h₂ h₃ h₄
    rw [zeroRun, if_pos (by omega)]
    by_cases hik : i = k
    · subst hik
      exact zeroRun_preserves_zero n _ (i + 1) _ (getD_set_eq _ _ _ _ h₄)
    · exact ih _ (i + 1) k (by omega) (by omega) h₃ (by simpa using h₄)

/-- Every zigzag index maps into `[0, 64)`. -/
lemma zigZagMap_lt : ∀ k, k < 64 → zigZagMap.getD k 0 < 64 := by decide

/-- The zigzag table is injective on `[0, 64)`. -/
lemma zigZagMap_inj : ∀ a, a < 64 → ∀ b, b < 64 → a ≠ b →
    zigZagMap.getD a 0 ≠ zigZagMap.getD b 0 := by decide

/-! ## C3: the ZRL (0xF0) symbol -/

/-- An AC Huffman table with two length-1 codes: `0 ↦ ZRL (0xF0)` and
`1 ↦ EOB (0x00)`; used to drive the AC loop in concrete runs. -/
def acTableZrlEob : HuffmanTable :=
  { set := true,
    offsets := [0, 2, 2, 2, 2, 2, 2, 2, 2, 2, 2, 2, 2, 2, 2, 2, 2],
    symbols := [240, 0] }

/-- Claim C3, counterexample.  Run the AC loop at zigzag index `i = 1`
(`1 + 15 < 64`) on a component whose 64 entries are all `1`, with a bit
stream whose first symbol is ZRL (`0xF0`) and whose second is EOB:
the loop succeeds, but the entry at spatial position
`zigZagMap[16] = zigZagMap[i + 15] = 12` is still `1`, not `0` — the ZRL
branch zero-fills only the 15 positions `zz[i] .. zz[i+14]` (the inner loop
of lines 696-698 runs `numZeroes = 15` times) and skips over `zz[i+15]`
without writing it, contradicting the claim that 16 zeros are written. -/
theorem decodeACLoop_zrl_counterexample :
    getNextSymbol ⟨0, 0, [64]⟩ (generateCodes acTableZrlEob) acTableZrlEob =
      (240, ⟨0, 1, [64]⟩) ∧
    (decodeACLoop (generateCodes acTableZrlEob) acTableZrlEob 1
        (List.replicate 64 1) ⟨0, 0, [64]⟩).map
      (fun p => (p.1.getD (zigZagMap.getD 16 0) 0, p.1.getD (zigZagMap.getD 1 0) 0))
      = some (1, 0) := by
  decide

/-- Claim C3 as amended:  When the AC loop reads the ZRL symbol `0xF0` at
zigzag index `i` with `i + 15 < 64`, it writes zero into the 15 positions
`zz[i] .. zz[i+14]`, leaves the position `zz[i+15]` unmodified (in the
pipeline that entry is still zero because the MCU buffer starts
zero-filled), stores no coefficient value, and decodes the next symbol for
position `i + 16`. -/
theorem decodeACLoop_zrl (acCodes : List Int) (acTable : HuffmanTable)
    (i : Nat) (comp : List Int) (b b₁ : BitReader)
    (hlen : comp.length = 64) (hi : i + 15 < 64)
    (hsym : getNextSymbol b acCodes acTable = (240, b₁)) :
    decodeACLoop acCodes acTable i comp b =
      decodeACLoop acCodes acTable (i + 16) (zeroRun comp i 15).1 b₁ ∧
    (∀ k, i ≤ k → k < i + 15 →
      ((zeroRun comp i 15).1).getD (zigZagMap.getD k 0) 0 = 0) ∧
    ((zeroRun comp i 15).1).getD (zigZagMap.getD (i + 15) 0) 0 =
      comp.getD (zigZagMap.getD (i + 15) 0) 0 := by
  refine ⟨?_, ?_, ?_⟩
  · obtain ⟨k, hk⟩ : ∃ k, 64 - i = k + 1 := ⟨63 - i, by omega⟩
    rw [decodeACLoop, hk, decodeACGo, if_pos (by omega), hsym]
    dsimp only
    rw [if_neg (by decide), if_neg (by decide),
      show (240 : Nat) >>> 4 = 15 from rfl, show (240 : Nat) &&& 15 = 0 from rfl,
      if_neg (by decide), if_neg (by decide),
      zeroRun_snd_of_le 15 comp i (by omega)]
    rw [decodeACLoop, show i + 15 + 1 = i + 16 from rfl]
    exact decodeACGo_fuel_irrel acCodes acTable k (64 - (i + 16)) (i + 16)
      (zeroRun comp i 15).1 b₁ (by omega) (by omega)
  · intro k hk₁ hk₂
    exact zeroRun_getD_zero 15 comp i k hk₁ hk₂ (by omega)
      (by rw [hlen]; exact zigZagMap_lt k (by omega))
  · refine zeroRun_getD_of_ne 15 comp i _ 0 ?_
    intro k hk₁ hk₂ hk₃
    exact zigZagMap_inj k (by omega) (i + 15) (by omega) (by omega)

/-- Witness for the amended C3, instantiated on the all-ones component at
`i = 1`: the loop reduces to position 17, positions `zz[1] .. zz[15]` are
zeroed (`zz[5] = 2` shown), and `zz[16] = 12` keeps its old value `1`. -/
theorem decodeACLoop_zrl_witness :
    decodeACLoop (generateCodes acTableZrlEob) acTableZrlEob 1
        (List.replicate 64 1) ⟨0, 0, [64]⟩ =
      decodeACLoop (generateCodes acTableZrlEob) acTableZrlEob 17
        (zeroRun (List.replicate 64 1) 1 15).1 ⟨0, 1, [64]⟩ ∧
    ((zeroRun (List.replicate 64 1) 1 15).1).getD (zigZagMap.getD 5 0) 0 = 0 ∧
    ((zeroRun (List.replicate 64 1) 1 15).1).getD (zigZagMap.getD 16 0) 0 =
      (List.replicate 64 1).getD (zigZagMap.getD 16 0) 0 := by
  have h := decodeACLoop_zrl (generateCodes acTableZrlEob) acTableZrlEob 1
    (List.replicate 64 1) ⟨0, 0, [64]⟩ ⟨0, 1, [64]⟩ (by decide) (by decide) (by decide)
  exact ⟨h.1, h.2.1 5 (by decide) (by decide), h.2.2⟩

/-! ## C4: zero-run overrun past coefficient 63 -/

lemma decodeACGo_of_ge (acCodes : List Int) (acTable : HuffmanTable)
    (fuel i : Nat) (comp : List Int) (b : BitReader) (h : ¬ i < 64) :
    decodeACGo acCodes acTable fuel i comp b = some (comp, b) := by
  cases fuel with
  | zero => rw [decodeACGo, if_neg h]
  | succ fuel => rw [decodeACGo, if_neg h]

/-- A DC Huffman table with the single length-1 code `0 ↦ 0`
(DC size 0, differential 0); used to drive concrete runs. -/
def dcTableZero : HuffmanTable :=
  { set := true,
    offsets := [0, 1, 1, 1, 1, 1, 1, 1, 1, 1, 1, 1, 1, 1, 1, 1, 1],
    symbols := [0] }

/-- An AC Huffman table with the single length-1 code `0 ↦ ZRL (0xF0)`. -/
def acTableZrl : HuffmanTable :=
  { set := true,
    offsets := [0, 1, 1, 1, 1, 1, 1, 1, 1, 1, 1, 1, 1, 1, 1, 1, 1],
    symbols := [240] }

/-- An AC Huffman table with the single length-1 code `0 ↦ 0x11`
(run 1, size 1). -/
def acTableRun1Size1 : HuffmanTable :=
  { set := true,
    offsets := [0, 1, 1, 1, 1, 1, 1, 1, 1, 1, 1, 1, 1, 1, 1, 1, 1],
    symbols := [17] }

/-- Claim C4, counterexample.  Decode one block from the bit stream
`0b00000000`: the DC symbol is 0, then four ZRL symbols are read at zigzag
indices 1, 17, 33 and 49.  The fourth ZRL has `R = 15`, `S = 0` and
`i + R = 64 > 63`, so by the claim the decode must fail; instead the inner
zero-fill loop stops at the `i < 64` guard (line 696), the `i == 64` check
(line 706) is skipped because `coeffLength = 0`, and `decodeMCUComponent`
returns success — the overrunning zero run is silently truncated. -/
theorem decodeMCUComponent_overrun_counterexample :
    49 + 15 > 63 ∧
    (decodeMCUComponent ⟨0, 0, [0]⟩ (List.replicate 64 0) 0
        (generateCodes dcTableZero) dcTableZero
        (generateCodes acTableZrl) acTableZrl).isSome = true := by
  decide

/-- Claim C4 as amended:  The AC loop is fatal on an overrunning run only when
the symbol's size nibble is nonzero: for `S ≠ 0` and `i + R ≥ 64` the loop
returns failure (through the `coeffLength > 10` check when `S > 10`, and
otherwise through the `i == 64` check after the zero fill); for `S = 0` and
`i + R > 63` the run is silently truncated at position 63 and the loop
returns success with the zero-filled component. -/
theorem decodeACLoop_overrun (acCodes : List Int) (acTable : HuffmanTable) :
    (∀ (i : Nat) (comp : List Int) (b : BitReader) (symbol : Nat) (b₁ : BitReader),
      i < 64 → getNextSymbol b acCodes acTable = (symbol, b₁) →
      symbol &&& 15 ≠ 0 → 64 ≤ i + (symbol >>> 4) →
      decodeACLoop acCodes acTable i comp b = none) ∧
    (∀ (i : Nat) (comp : List Int) (b : BitReader) (symbol : Nat) (b₁ : BitReader),
      i < 64 → getNextSymbol b acCodes acTable = (symbol, b₁) →
      symbol ≠ 0 → symbol &&& 15 = 0 → 63 < i + (symbol >>> 4) →
      decodeACLoop acCodes acTable i comp b =
        some ((zeroRun comp i (symbol >>> 4)).1, b₁)) := by
  constructor
  · intro i comp b symbol b₁ hi hsym hS hR
    have hs0 : ¬ symbol = 0 := fun h => hS (by subst h; rfl)
    obtain ⟨k, hk⟩ : ∃ k, 64 - i = k + 1 := ⟨63 - i, by omega⟩
    rw [decodeACLoop, hk, decodeACGo, if_pos hi, hsym]
    dsimp only
    rw [if_neg (by omega), if_neg hs0]
    by_cases hcl : symbol &&& 15 > 10
    · rw [if_pos hcl]
    · rw [if_neg hcl, if_pos hS,
        if_pos (zeroRun_snd_of_ge (symbol >>> 4) comp i (by omega) hR)]
  · intro i comp b symbol b₁ hi hsym hs0 hS hR
    obtain ⟨k, hk⟩ : ∃ k, 64 - i = k + 1 := ⟨63 - i, by omega⟩
    rw [decodeACLoop, hk, decodeACGo, if_pos hi, hsym]
    dsimp only
    rw [if_neg (by omega), if_neg hs0, hS,
      if_neg (by decide), if_neg (by decide),
      zeroRun_snd_of_ge (symbol >>> 4) comp i (by omega) (by omega)]
    exact decodeACGo_of_ge acCodes acTable k 65 _ b₁ (by decide)

/-- Witness for the amended C4.  First conjunct at `i = 63` with symbol
`0x11` (`R = 1, S = 1`, `63 + 1 ≥ 64`): the loop fails.  Second conjunct at
`i = 49` with ZRL (`R = 15, S = 0`, `49 + 15 > 63`): the loop succeeds with
the truncated zero fill. -/
theorem decodeACLoop_overrun_witness :
    decodeACLoop (generateCodes acTableRun1Size1) acTableRun1Size1 63
        (List.replicate 64 0) ⟨0, 0, [0]⟩ = none ∧
    decodeACLoop (generateCodes acTableZrl) acTableZrl 49
        (List.replicate 64 0) ⟨0, 0, [0]⟩ =
      some ((zeroRun (List.replicate 64 0) 49 15).1, ⟨0, 1, [0]⟩) :=
  ⟨(decodeACLoop_overrun (generateCodes acTableRun1Size1) acTableRun1Size1).1
      63 (List.replicate 64 0) ⟨0, 0, [0]⟩ 17 ⟨0, 1, [0]⟩
      (by decide) (by decide) (by decide) (by decide),
   (decodeACLoop_overrun (generateCodes acTableZrl) acTableZrl).2
      49 (List.replicate 64 0) ⟨0, 0, [0]⟩ 240 ⟨0, 1, [0]⟩
      (by decide) (by decide) (by decide) (by decide) (by decide)⟩

/-! ## C6: restart-interval predictor reset and bit-reader alignment -/

lemma align_aligned (b : BitReader) :
    (b.align).nextBit = 0 ∨ (b.align).data.length ≤ (b.align).nextByte := by
  rw [BitReader.align]
  by_cases h1 : b.data.length ≤ b.nextByte
  · rw [if_pos h1]
    exact Or.inr h1
  · rw [if_neg h1]
    by_cases h2 : b.nextBit ≠ 0
    · rw [if_pos h2]
      exact Or.inl rfl
    · rw [if_neg h2]
      push_neg at h2
      exact Or.inl h2

/-- Claim C6: For the loop body of `decodeHuffmanData` processing the MCU with
0-based index `i` (so `numProcessed = i + 1`): when `restartInterval ≠ 0`
divides `i + 1`, the resulting state has all three DC predictors equal to 0
and a byte-aligned bit reader (`align()` was called, so either `nextBit = 0`
or the reader is past its data); when `restartInterval = 0`, the predictors
are never reset — the Y predictor is the just-decoded DC coefficient
`mcu.y[0]`, and likewise for Cb/Cr when `numComponents = 3`, the Cb/Cr
predictors being carried unchanged for grayscale. -/
theorem decodeMCUStep_restart (h : Header) (dcCodes acCodes : List (List Int))
    (i : Nat) (s : DecodeState) (mcu : MCU) (s' : DecodeState)
    (hstep : decodeMCUStep h dcCodes acCodes i s = some (mcu, s')) :
    (h.restartInterval ≠ 0 → (i + 1) % h.restartInterval = 0 →
      s'.prevY = 0 ∧ s'.prevCb = 0 ∧ s'.prevCr = 0 ∧
      (s'.reader.nextBit = 0 ∨ s'.reader.data.length ≤ s'.reader.nextByte)) ∧
    (h.restartInterval = 0 →
      s'.prevY = mcu.y.getD 0 0 ∧
      (h.numComponents = 3 → s'.prevCb = mcu.cb.getD 0 0 ∧ s'.prevCr = mcu.cr.getD 0 0) ∧
      (h.numComponents ≠ 3 → s'.prevCb = s.prevCb ∧ s'.prevCr = s.prevCr)) := by
  simp only [decodeMCUStep] at hstep
  split at hstep
  · cases hstep
  · rename_i ycomp b₁ heqy
    split at hstep
    · rename_i hc3
      split at hstep
      · cases hstep
      · rename_i cbcomp b₂ heqcb
        split at hstep
        · cases hstep
        · rename_i crcomp b₃ heqcr
          split at hstep
          · rename_i hreset
            obtain ⟨h1, h2⟩ := Prod.mk.inj (Option.some.inj hstep)
            subst h1
            subst h2
            refine ⟨fun _ _ => ⟨rfl, rfl, rfl, align_aligned b₃⟩, fun h0 => ?_⟩
            exact absurd h0 hreset.1
          · rename_i hreset
            obtain ⟨h1, h2⟩ := Prod.mk.inj (Option.some.inj hstep)
            subst h1
            subst h2
            refine ⟨fun hne hmod => absurd ⟨hne, hmod⟩ hreset, fun _ => ?_⟩
            exact ⟨rfl, fun _ => ⟨rfl, rfl⟩, fun hne => absurd hc3 hne⟩
    · rename_i hc3
      split at hstep
      · rename_i hreset
        obtain ⟨h1, h2⟩ := Prod.mk.inj (Option.some.inj hstep)
        subst h1
        subst h2
        refine ⟨fun _ _ => ⟨rfl, rfl, rfl, align_aligned b₁⟩, fun h0 => ?_⟩
        exact absurd h0 hreset.1
      · rename_i hreset
        obtain ⟨h1, h2⟩ := Prod.mk.inj (Option.some.inj hstep)
        subst h1
        subst h2
        exact ⟨fun hne hmod => absurd ⟨hne, hmod⟩ hreset,
          fun _ => ⟨rfl, fun h3 => absurd h3 hc3, fun _ => ⟨rfl, rfl⟩⟩⟩

/-- An AC Huffman table with the single length-1 code `0 ↦ EOB (0x00)`. -/
def acTableEob : HuffmanTable :=
  { set := true,
    offsets := [0, 1, 1, 1, 1, 1, 1, 1, 1, 1, 1, 1, 1, 1, 1, 1, 1],
    symbols := [0] }

/-- A one-component header with `restartInterval = 1` whose Y component uses
`dcTableZero` and `acTableEob`; the bit stream `[0x00]` decodes one MCU in
two bits. -/
def headerRestart1 : Header :=
  { numComponents := 1, restartInterval := 1,
    huffmanDCTables := [dcTableZero, {}, {}, {}],
    huffmanACTables := [acTableEob, {}, {}, {}] }

/-- Witness for C6: after the first MCU (`numProcessed = 1`, a multiple of
`restartInterval = 1`) the predictors are 0 and the reader was aligned from
bit position 2 to byte 1. -/
theorem decodeMCUStep_restart_witness :
    (DecodeState.mk 0 0 0 ⟨1, 0, [0]⟩).prevY = 0 ∧
    (DecodeState.mk 0 0 0 ⟨1, 0, [0]⟩).prevCb = 0 ∧
    (DecodeState.mk 0 0 0 ⟨1, 0, [0]⟩).prevCr = 0 ∧
    ((DecodeState.mk 0 0 0 ⟨1, 0, [0]⟩).reader.nextBit = 0 ∨
      (DecodeState.mk 0 0 0 ⟨1, 0, [0]⟩).reader.data.length ≤
        (DecodeState.mk 0 0 0 ⟨1, 0, [0]⟩).reader.nextByte) :=
  (decodeMCUStep_restart headerRestart1
      [generateCodes dcTableZero, [], [], []] [generateCodes acTableEob, [], [], []]
      0 ⟨0, 0, 0, ⟨0, 0, [0]⟩⟩ {} ⟨0, 0, 0, ⟨1, 0, [0]⟩⟩ (by decide)).1
    (by decide) (by decide)

end Jpeg
